import Mathlib

/-!
Verification of the directory-scanning core of pigallery2
(`src/backend/model/threading/DiskMangerWorker.ts`).

The TypeScript code is shallowly embedded: Node's POSIX path routines
(`path.normalize`, `path.join`, `path.basename`, `path.dirname`,
`path.extname`) are modelled character-by-character on `List Char`;
the scanner state (the mutated `directory` object) is threaded
explicitly; `async` failure (`throw` / `try-catch`) becomes `Except`.
-/

set_option autoImplicit false

namespace DiskManger

/-! ## Node `path.posix` primitives -/

/-- Split a character list on `'/'`, keeping empty segments
(the semantics of splitting a path string on its separator). -/
def splitSegs : List Char → List (List Char)
  | [] => [[]]
  | c :: rest =>
    if c = '/' then [] :: splitSegs rest
    else (c :: (splitSegs rest).headI) :: (splitSegs rest).tail

/-- Join segments with `'/'`, mirroring how Node's `normalizeString`
assembles its result string. -/
def joinSegs : List (List Char) → List Char
  | [] => []
  | [s] => s
  | s :: s2 :: rest => s ++ '/' :: joinSegs (s2 :: rest)

/-- The `".."` segment. -/
def dd : List Char := ['.', '.']

/-- One step of Node's `normalizeString` segment resolution, acting on a
stack of already-resolved segments (head = most recent). Empty and `"."`
segments are dropped; `".."` pops a non-`".."` top, and otherwise is kept
only when `allowAboveRoot` is set. -/
def normStep (allowAboveRoot : Bool) (stack : List (List Char)) (seg : List Char) :
    List (List Char) :=
  if seg = [] ∨ seg = ['.'] then stack
  else if seg = dd then
    match stack with
    | [] => if allowAboveRoot then [dd] else []
    | top :: rest =>
      if top = dd then (if allowAboveRoot then dd :: stack else stack) else rest
  else seg :: stack

/-- Resolve all `"."` and `".."` segments of a split path, in order. -/
def normalizeSegs (allowAboveRoot : Bool) (segs : List (List Char)) : List (List Char) :=
  (segs.foldl (normStep allowAboveRoot) []).reverse

/-- Node `path.posix.normalize` on character lists. -/
def posixNormalizeL (cs : List Char) : List Char :=
  match cs with
  | [] => ['.']
  | c :: rest =>
    let isAbs : Bool := c = '/'
    let trailing : Bool := (c :: rest).getLast? = some '/'
    let body := joinSegs (normalizeSegs (!isAbs) (splitSegs (c :: rest)))
    if body = [] then
      if isAbs then ['/'] else if trailing then ['.', '/'] else ['.']
    else
      (if isAbs then '/' :: body else body) ++ (if trailing then ['/'] else [])

/-- Node `path.posix.normalize` on strings. -/
def posixNormalize (p : String) : String :=
  (posixNormalizeL p.toList).asString

/-- Node `path.posix.join` restricted to two arguments (the only arity the
scanner uses): empty arguments are dropped, the rest are concatenated with
`'/'` and the concatenation is normalized. -/
def posixJoin2 (a b : String) : String :=
  if a = "" then (if b = "" then "." else posixNormalize b)
  else if b = "" then posixNormalize a
  else posixNormalize (a ++ "/" ++ b)

/-- Scan of Node `path.posix.basename`: walking from the end of the string,
skip trailing slashes, then record the end (exclusive) and start of the last
run of non-slash characters. Returns `(start, end?)`. -/
def bnGo (cs : List Char) : Nat → Bool → Option Nat → Nat × Option Nat
  | 0, matchedSlash, e =>
    if cs.getD 0 'a' = '/' then
      (if matchedSlash = false then (1, e) else (0, e))
    else (0, if e = none then some 1 else e)
  | i + 1, matchedSlash, e =>
    if cs.getD (i + 1) 'a' = '/' then
      (if matchedSlash = false then (i + 2, e) else bnGo cs i matchedSlash e)
    else bnGo cs i false (if e = none then some (i + 2) else e)

/-- Node `path.posix.basename` (no extension argument). -/
def posixBasename (p : String) : String :=
  let cs := p.toList
  if cs.length = 0 then ""
  else
    match bnGo cs (cs.length - 1) true none with
    | (_, none) => ""
    | (s, some e) => ((cs.take e).drop s).asString

/-- Scan of Node `path.posix.dirname`: walking from the end down to index 1,
find the index of the slash that precedes the basename (the first slash
after a non-slash character was seen). -/
def dnGo (cs : List Char) : Nat → Bool → Option Nat
  | 0, _ => none
  | i + 1, matchedSlash =>
    if cs.getD (i + 1) 'a' = '/' then
      if matchedSlash = false then some (i + 1) else dnGo cs i matchedSlash
    else dnGo cs i false

/-- Node `path.posix.dirname`. -/
def posixDirname (p : String) : String :=
  let cs := p.toList
  if cs.length = 0 then "."
  else
    let hasRoot : Bool := cs.getD 0 'a' = '/'
    match dnGo cs (cs.length - 1) true with
    | none => if hasRoot then "/" else "."
    | some e =>
      if hasRoot ∧ e = 1 then "//" else ((cs.take e).asString)

/-- Index (from the front) of the last `'.'` of a character list, if any. -/
def lastDotIdx (cs : List Char) : Option Nat :=
  match cs.reverse.findIdx? (fun c => c = '.') with
  | none => none
  | some r => some (cs.length - 1 - r)

/-- Node `path.posix.extname`: the suffix of the basename starting at its
last `'.'`, empty when there is no dot or the only dot leads a dotfile. -/
def posixExtname (p : String) : String :=
  let b := (posixBasename p).toList
  match lastDotIdx b with
  | none => ""
  | some 0 => ""
  | some i => (b.drop i).asString

/-! ## `DiskMangerWorker` path helpers -/

/-- `DiskMangerWorker.calcLastModified`: max of ctime and mtime. -/
def calcLastModified (ctime mtime : Nat) : Nat := max ctime mtime

/-- `DiskMangerWorker.normalizeDirPath`:
`path.normalize(path.join('.' + path.sep, dirPath))`. -/
def normalizeDirPath (dirPath : String) : String :=
  posixJoin2 ("." ++ "/") dirPath

/-- `DiskMangerWorker.pathFromRelativeDirName`:
`path.join(path.dirname(normalizeDirPath(n)), path.sep)`. -/
def pathFromRelativeDirName (relativeDirectoryName : String) : String :=
  posixJoin2 (posixDirname (normalizeDirPath relativeDirectoryName)) "/"

/-- `DiskMangerWorker.pathFromParent`:
`path.join(normalizeDirPath(path.join(parent.path, parent.name)), path.sep)`. -/
def pathFromParent (parentPath parentName : String) : String :=
  posixJoin2 (normalizeDirPath (posixJoin2 parentPath parentName)) "/"

/-- JS `String.prototype.trim` over the common whitespace characters. -/
def jsTrim (s : String) : String :=
  ((s.toList.dropWhile Char.isWhitespace).reverse.dropWhile Char.isWhitespace).reverse.asString

/-- `DiskMangerWorker.dirName`: `'.'` for a blank path, else `path.basename`. -/
def dirName (dirPath : String) : String :=
  if (jsTrim dirPath).length = 0 then "." else posixBasename dirPath

/-- A path segment that normalization can keep: nonempty, not `"."`, and
slash-free. -/
def GoodSeg (s : List Char) : Prop := s ≠ [] ∧ s ≠ ['.'] ∧ '/' ∉ s

/-- Invariant of the `normStep` stack (head = most recent): good non-`".."`
segments on top of a run of `".."` segments. -/
def CanonStack (st : List (List Char)) : Prop :=
  ∃ u v, st = u ++ v ∧ (∀ s ∈ u, GoodSeg s ∧ s ≠ dd) ∧ ∀ s ∈ v, s = dd

/-- A canonical segment list: a run of `".."` followed by good non-`".."`
segments. -/
def CanonList (S : List (List Char)) : Prop :=
  ∃ k w, S = List.replicate k dd ++ w ∧ ∀ s ∈ w, GoodSeg s ∧ s ≠ dd

/-! ## Filesystem model

A directory tree as seen through `fsp.stat` / `fsp.readdir`: every node
carries its stat ctime/mtime; directories carry their listing in
`readdir` order. -/

mutual

inductive FSNode where
  | file (ctime mtime : Nat)
  | dir (ctime mtime : Nat) (entries : FSEntries)

inductive FSEntries where
  | nil
  | cons (name : String) (node : FSNode) (rest : FSEntries)

end

/-- The ctime reported by `fsp.stat` for a node. -/
def FSNode.statCtime : FSNode → Nat
  | .file c _ => c
  | .dir c _ _ => c

/-- The mtime reported by `fsp.stat` for a node. -/
def FSNode.statMtime : FSNode → Nat
  | .file _ m => m
  | .dir _ m _ => m

/-- Whether a listing contains an entry of the given name
(models the `fsp.access` existence probe for marker files). -/
def FSEntries.hasName : FSEntries → String → Bool
  | .nil, _ => false
  | .cons n _ rest, x => n = x || FSEntries.hasName rest x

/-- Whether a node is a directory containing an entry of the given name. -/
def hasDirectEntry (node : FSNode) (entryName : String) : Bool :=
  match node with
  | .file _ _ => false
  | .dir _ _ entries => FSEntries.hasName entries entryName

/-! ## Data model of the scanner -/

/-- `PhotoDTO` / `VideoDTO` as built by the scanner: a name, a nullable
`directory` back-reference (path and name of the owning snapshot), and
nullable metadata. The photo/video discriminant (`MediaDTOUtils.isVideo`)
is carried as a tag. -/
structure MediaEntry where
  name : String
  directory : Option (String × String)
  metadata : Option Nat
  isVideo : Bool
deriving DecidableEq, Repr

/-- The scalar fields of a `ParentDirectoryDTO` (`id` and `parent` are
always `null` in the scanner and are omitted). -/
structure DirData where
  name : String
  path : String
  lastModified : Nat
  lastScanned : Nat
  isPartial : Bool
  mediaCount : Nat
  videoCount : Nat
  directoryCount : Nat
  cover : Option MediaEntry
  validCover : Bool
  media : List MediaEntry
  metaFile : List String
deriving DecidableEq, Repr

/-- A directory snapshot: the scalar fields plus the `directories` list. -/
inductive DirSnapshot where
  | node (data : DirData) (directories : List DirSnapshot)

/-- The scalar fields of a snapshot. -/
def DirSnapshot.data : DirSnapshot → DirData
  | .node d _ => d

/-- The `directories` list of a snapshot. -/
def DirSnapshot.directories : DirSnapshot → List DirSnapshot
  | .node _ l => l

/-- `DirectoryScanSettings`; in the TypeScript interface every switch is an
optional boolean read only through `=== true` comparisons, so `undefined`
behaves as `false`. -/
structure DirectoryScanSettings where
  coverOnly : Bool := false
  noMetaFile : Bool := false
  noVideo : Bool := false
  noPhoto : Bool := false
  noDirectory : Bool := false
  noMetadata : Bool := false
  noChildDirPhotos : Bool := false
deriving DecidableEq, Repr

/-- The ambient collaborators of the scanner: `ProjectPath.ImageFolder`,
`Config` switches, the format registries (`PhotoProcessing.isPhoto`,
`VideoProcessing.isVideo`, `GPXProcessing.isMetaFile`) and the
`MetadataLoader` (whose loads may fail, modelled by `Except`). -/
structure ScanEnv where
  imageFolder : String
  videoEnabled : Bool
  gpxEnabled : Bool
  markdownEnabled : Bool
  pg2confEnabled : Bool
  excludeFolderList : List String
  excludeFileList : List String
  isPhoto : String → Bool
  isVideo : String → Bool
  isMetaFile : String → Bool
  loadPhotoMetadata : String → Except String Nat
  loadVideoMetadata : String → Except String Nat

/-- Failures that propagate out of `scanDirectory`: `fsp.readdir` on a
non-directory, or an uncaught photo metadata load failure. -/
inductive ScanError where
  | notADirectory
  | metadataFailure (msg : String)
deriving DecidableEq, Repr

/-! ## Exclusion filter -/

/-- JS `exclude.startsWith('/')`. -/
def startsWithSlash (s : String) : Bool := s.toList.headD 'a' = '/'

/-- JS `exclude.includes('/')`. -/
def slashIn (s : String) : Bool := s.toList.contains '/'

/-- `DiskMangerWorker.excludeDir`. `child` is the candidate subdirectory's
node, used for the marker-file existence probes. -/
def excludeDir (env : ScanEnv) (child : FSNode)
    (name relativeDirectoryName absoluteDirectoryName : String) : Bool :=
  if env.excludeFolderList = [] ∧ env.excludeFileList = [] then false
  else
    let absoluteName := posixNormalize (posixJoin2 absoluteDirectoryName name)
    let relativeName := posixNormalize (posixJoin2 relativeDirectoryName name)
    if env.excludeFolderList.any (fun exclude =>
        if startsWithSlash exclude then exclude = absoluteName
        else if slashIn exclude then posixNormalize exclude = relativeName
        else exclude = name) then
      true
    else
      env.excludeFileList.any (fun exclude => hasDirectEntry child exclude)

/-- `DiskMangerWorker.isEnabledMetaFile`. -/
def isEnabledMetaFile (env : ScanEnv) (fullPath : String) : Bool :=
  let extension := (posixExtname fullPath).toLower
  if extension = ".gpx" then env.gpxEnabled
  else if extension = ".md" then env.markdownEnabled
  else if extension = ".pg2conf" then env.pg2confEnabled
  else false

/-! ## Scanner state updates (the mutations of the `directory` object) -/

/-- `directory.directoryCount++`. -/
def bumpDirCount : DirSnapshot → DirSnapshot
  | .node d subs => .node { d with directoryCount := d.directoryCount + 1 } subs

/-- `d.lastScanned = 0; d.isPartial = true` applied to a child snapshot. -/
def markPartialChild : DirSnapshot → DirSnapshot
  | .node d subs => .node { d with lastScanned := 0, isPartial := true } subs

/-- `directory.directories.push(d)`. -/
def pushChildDir (child : DirSnapshot) : DirSnapshot → DirSnapshot
  | .node d subs => .node d (subs ++ [child])

/-- Sets the cover when there is none yet: `directory.cover` becomes a
clone of the photo with its `directory` back-reference pointing at this
snapshot. -/
def coverFromPhoto (photo : MediaEntry) : DirSnapshot → DirSnapshot
  | .node d subs =>
    if d.cover.isNone then
      .node { d with cover := some { photo with directory := some (d.path, d.name) } } subs
    else .node d subs

/-- `directory.media.push(m)`. -/
def pushMedia (m : MediaEntry) : DirSnapshot → DirSnapshot
  | .node d subs => .node { d with media := d.media ++ [m] } subs

/-- `directory.metaFile.push({name, directory: null})`. -/
def pushMetaFile (fileName : String) : DirSnapshot → DirSnapshot
  | .node d subs => .node { d with metaFile := d.metaFile ++ [fileName] } subs

/-- The assignments after the loop: `mediaCount = media.length;
videoCount = media.filter(isVideo).length`. -/
def finalizeCounts : DirSnapshot → DirSnapshot
  | .node d subs =>
    .node { d with mediaCount := d.media.length,
                   videoCount := (d.media.filter (fun m => m.isVideo)).length } subs

/-- The freshly initialized snapshot built by `scanDirectory` before the
listing loop (its `id` and `parent` are always `null` and omitted);
`relativeDirectoryName` is already normalized here. -/
def initialSnap (now : Nat) (node : FSNode) (relativeDirectoryName : String) : DirSnapshot :=
  .node
    { name := dirName relativeDirectoryName
      path := pathFromRelativeDirName relativeDirectoryName
      lastModified := calcLastModified node.statCtime node.statMtime
      lastScanned := now
      isPartial := false
      mediaCount := 0
      videoCount := 0
      directoryCount := 0
      cover := none
      validCover := false
      media := []
      metaFile := [] } []

/-! ## The scanner -/

mutual

/-- `DiskMangerWorker.scanDirectory`. `node` is the filesystem node that
the stat/readdir calls observe at the requested path; `now` is
`Date.now()`. -/
def scanDirectory (env : ScanEnv) (now : Nat) (node : FSNode)
    (relativeDirectoryName0 : String) (settings : DirectoryScanSettings) :
    Except ScanError DirSnapshot :=
  let relativeDirectoryName := normalizeDirPath relativeDirectoryName0
  let directory : DirSnapshot := initialSnap now node relativeDirectoryName
  if settings.noPhoto && settings.noMetaFile && settings.noVideo then
    .ok directory
  else
    match node with
    | .file _ _ => .error .notADirectory
    | .dir _ _ entries =>
      match scanList env now settings relativeDirectoryName
          (posixJoin2 env.imageFolder relativeDirectoryName) entries directory with
      | .error e => .error e
      | .ok d => .ok (finalizeCounts d)
termination_by structural node

/-- The `for (const file of list)` loop body of `scanDirectory`, threading
the `directory` object. -/
def scanList (env : ScanEnv) (now : Nat) (settings : DirectoryScanSettings)
    (relativeDirectoryName absoluteDirectoryName : String)
    (entries : FSEntries) (d : DirSnapshot) : Except ScanError DirSnapshot :=
  match entries with
  | .nil => .ok d
  | .cons file node rest =>
    let fullFilePath := posixNormalize (posixJoin2 absoluteDirectoryName file)
    match node with
    | .dir _ _ _ =>
      let d1 := bumpDirCount d
      if settings.noDirectory || settings.coverOnly ||
          excludeDir env node file relativeDirectoryName absoluteDirectoryName then
        scanList env now settings relativeDirectoryName absoluteDirectoryName rest d1
      else
        match scanDirectory env now node (posixJoin2 relativeDirectoryName file)
            { coverOnly := true } with
        | .error e => .error e
        | .ok c =>
          scanList env now settings relativeDirectoryName absoluteDirectoryName rest
            (pushChildDir (markPartialChild c) d1)
    | .file _ _ =>
      if env.isPhoto fullFilePath then
        if settings.noPhoto then
          scanList env now settings relativeDirectoryName absoluteDirectoryName rest d
        else
          match (if settings.noMetadata then Except.ok none
                 else (env.loadPhotoMetadata fullFilePath).map some) with
          | .error e => .error (.metadataFailure e)
          | .ok md =>
            let photo : MediaEntry :=
              { name := file, directory := none, metadata := md, isVideo := false }
            let d2 := pushMedia photo (coverFromPhoto photo d)
            if settings.coverOnly then .ok d2
            else scanList env now settings relativeDirectoryName absoluteDirectoryName rest d2
      else if env.isVideo fullFilePath then
        if env.videoEnabled = false || settings.noVideo || settings.coverOnly then
          scanList env now settings relativeDirectoryName absoluteDirectoryName rest d
        else
          match (if settings.noMetadata then Except.ok none
                 else (env.loadVideoMetadata fullFilePath).map some) with
          | .error _ =>
            scanList env now settings relativeDirectoryName absoluteDirectoryName rest d
          | .ok md =>
            scanList env now settings relativeDirectoryName absoluteDirectoryName rest
              (pushMedia { name := file, directory := none, metadata := md, isVideo := true } d)
      else if env.isMetaFile fullFilePath then
        if !(isEnabledMetaFile env fullFilePath) || settings.noMetaFile ||
            settings.coverOnly then
          scanList env now settings relativeDirectoryName absoluteDirectoryName rest d
        else
          scanList env now settings relativeDirectoryName absoluteDirectoryName rest
            (pushMetaFile file d)
      else
        scanList env now settings relativeDirectoryName absoluteDirectoryName rest d
termination_by structural entries

end

/-- `DiskMangerWorker.scanDirectoryNoMetadata`: mutates the caller's
settings object (`settings.noMetadata = true`) and delegates to
`scanDirectory`. The mutation is modelled by explicit state passing: the
second component is the state of the caller's settings object after the
call. -/
def scanDirectoryNoMetadata (env : ScanEnv) (now : Nat) (node : FSNode)
    (relativeDirectoryName0 : String) (settings : DirectoryScanSettings) :
    Except ScanError DirSnapshot × DirectoryScanSettings :=
  let settings1 := { settings with noMetadata := true }
  (scanDirectory env now node relativeDirectoryName0 settings1, settings1)

/-! ## Observation helpers and concrete test fixtures -/

/-- Concatenation of two listings. -/
def appendEntries : FSEntries → FSEntries → FSEntries
  | .nil, e2 => e2
  | .cons n node rest, e2 => .cons n node (appendEntries rest e2)

/-- The snapshot of a successful scan result (placeholder node on error). -/
def okSnap (r : Except ScanError DirSnapshot) : DirSnapshot :=
  match r with
  | .ok d => d
  | .error _ => DirSnapshot.node
      { name := "", path := "", lastModified := 0, lastScanned := 0, isPartial := false,
        mediaCount := 0, videoCount := 0, directoryCount := 0, cover := none,
        validCover := false, media := [], metaFile := [] } []

/-- A concrete collaborator environment for test scenarios: classification by
filename suffix (`.jpg` photo, `.mp4` video, `.gpx` meta file), every format
enabled, no exclusion rules, metadata loads succeeding with fixed payloads. -/
def baseEnv : ScanEnv :=
  { imageFolder := "/images"
    videoEnabled := true
    gpxEnabled := true
    markdownEnabled := true
    pg2confEnabled := true
    excludeFolderList := []
    excludeFileList := []
    isPhoto := fun p => p.toList.reverse.take 4 = ['g', 'p', 'j', '.']
    isVideo := fun p => p.toList.reverse.take 4 = ['4', 'p', 'm', '.']
    isMetaFile := fun p => p.toList.reverse.take 4 = ['x', 'p', 'g', '.']
    loadPhotoMetadata := fun _ => .ok 7
    loadVideoMetadata := fun _ => .ok 9 }

/-- Environment with a bare-name folder exclusion rule. -/
def envC3 : ScanEnv := { baseEnv with excludeFolderList := ["secret"] }

/-- Environment whose metadata loader fails on specific files. -/
def envC5 : ScanEnv :=
  { baseEnv with
    loadVideoMetadata := fun p =>
      if p = "/images/bad.mp4" then .error "container parse error" else .ok 9
    loadPhotoMetadata := fun p =>
      if p = "/images/corrupt.jpg" then .error "exif fail" else .ok 7 }

/-- Environment with the three exclusion-rule shapes of the spec example. -/
def envC7 : ScanEnv :=
  { baseEnv with excludeFolderList := ["/abs/secret", "rel/sub", "bare"] }

/-- Root containing only a subdirectory chain with a single photo at depth 2. -/
def fsC1 : FSNode :=
  .dir 1 2 (.cons "a"
    (.dir 3 4 (.cons "b" (.dir 5 6 (.cons "p.jpg" (.file 7 8) .nil)) .nil)) .nil)

/-- Root whose subdirectory directly contains a single photo (depth 1). -/
def fsD1 : FSNode :=
  .dir 1 2 (.cons "a" (.dir 3 4 (.cons "p.jpg" (.file 5 6) .nil)) .nil)

/-- Root with an excluded subdirectory `secret` containing a photo. -/
def fsC3 : FSNode :=
  .dir 1 2 (.cons "secret" (.dir 3 4 (.cons "p.jpg" (.file 5 6) .nil)) .nil)

/-- Root listing a video before a photo. -/
def fsC4 : FSNode :=
  .dir 1 2 (.cons "v.mp4" (.file 3 4) (.cons "p.jpg" (.file 5 6) .nil))

/-- Root with three loadable videos and one whose metadata load fails. -/
def fsC5v : FSNode :=
  .dir 1 2 (.cons "v1.mp4" (.file 3 4)
    (.cons "bad.mp4" (.file 5 6)
      (.cons "v2.mp4" (.file 7 8)
        (.cons "v3.mp4" (.file 9 10) .nil))))

/-- Root with a photo whose metadata load fails. -/
def fsC5p : FSNode :=
  .dir 1 2 (.cons "corrupt.jpg" (.file 3 4) .nil)

/-- Root with a direct photo and a subdirectory containing a photo. -/
def fsC2w : FSNode :=
  .dir 1 2 (.cons "root.jpg" (.file 3 4)
    (.cons "a" (.dir 5 6 (.cons "p.jpg" (.file 7 8) .nil)) .nil))

/-- The cover/media relationship maintained by the scan loop: `validCover`
stays false and `cover` is the first photo (non-video entry) of the media
list, cloned with the snapshot's own path and name as its `directory`
back-reference. -/
def CoverInv (d : DirSnapshot) : Prop :=
  (DirSnapshot.data d).validCover = false ∧
  (DirSnapshot.data d).cover =
    ((DirSnapshot.data d).media.find? (fun m => !m.isVideo)).map
      (fun m =>
        { m with directory := some ((DirSnapshot.data d).path, (DirSnapshot.data d).name) })

/-! ## Splitting and joining path segments -/

theorem splitSegs_ne_nil (cs : List Char) : splitSegs cs ≠ [] := by
  cases cs with
  | nil => simp [splitSegs]
  | cons c rest =>
    simp only [splitSegs]
    split <;> simp

theorem splitSegs_exists (cs : List Char) : ∃ s0 ss, splitSegs cs = s0 :: ss := by
  cases h : splitSegs cs with
  | nil => exact absurd h (splitSegs_ne_nil cs)
  | cons a l => exact ⟨a, l, rfl⟩

theorem no_slash_splitSegs : ∀ (cs : List Char), ∀ s ∈ splitSegs cs, '/' ∉ s := by
  intro cs
  induction cs with
  | nil =>
    intro s hs
    simp only [splitSegs, List.mem_singleton] at hs
    simp [hs]
  | cons c rest ih =>
    intro s hs
    obtain ⟨s0, ss, h0⟩ := splitSegs_exists rest
    simp only [splitSegs, h0] at hs
    by_cases hc : c = '/'
    · rw [if_pos hc] at hs
      rcases List.mem_cons.mp hs with h | h
      · simp [h]
      · exact ih s (h0 ▸ h)
    · rw [if_neg hc] at hs
      simp only [List.headI, List.tail_cons] at hs
      rcases List.mem_cons.mp hs with h | h
      · subst h
        intro hm
        rcases List.mem_cons.mp hm with h1 | h1
        · exact hc h1.symm
        · exact ih s0 (by rw [h0]; exact List.mem_cons_self _ _) h1
      · exact ih s (by rw [h0]; exact List.mem_cons_of_mem _ h)

theorem splitSegs_append_left (s : List Char) (hs : '/' ∉ s) (u : List Char)
    (u0 : List Char) (us : List (List Char)) (hu : splitSegs u = u0 :: us) :
    splitSegs (s ++ u) = (s ++ u0) :: us := by
  induction s with
  | nil => simpa using hu
  | cons c cs ih =>
    have hc : c ≠ '/' := fun h => hs (by simp [h])
    have hcs : '/' ∉ cs := fun h => hs (List.mem_cons_of_mem _ h)
    rw [List.cons_append]
    simp only [splitSegs, ih hcs, if_neg hc, List.headI, List.tail_cons]
    simp

theorem splitSegs_no_slash (s : List Char) (hs : '/' ∉ s) : splitSegs s = [s] := by
  have h := splitSegs_append_left s hs [] [] [] (by simp [splitSegs])
  simpa using h

theorem splitSegs_append_slash (s : List Char) (hs : '/' ∉ s) (t : List Char) :
    splitSegs (s ++ '/' :: t) = s :: splitSegs t := by
  obtain ⟨t0, ts, ht⟩ := splitSegs_exists t
  have h1 : splitSegs ('/' :: t) = [] :: t0 :: ts := by
    simp [splitSegs, ht]
  have h2 := splitSegs_append_left s hs ('/' :: t) [] (t0 :: ts) h1
  rw [h2, ht]
  simp

theorem joinSegs_cons2 (s s2 : List Char) (rest : List (List Char)) :
    joinSegs (s :: s2 :: rest) = s ++ '/' :: joinSegs (s2 :: rest) := rfl

theorem splitSegs_joinSegs : ∀ (S : List (List Char)), S ≠ [] →
    (∀ s ∈ S, '/' ∉ s) → splitSegs (joinSegs S) = S := by
  intro S
  induction S with
  | nil => intro h; exact absurd rfl h
  | cons s S2 ih =>
    intro _ hns
    cases S2 with
    | nil => simpa [joinSegs] using splitSegs_no_slash s (hns s (List.mem_cons_self _ _))
    | cons s2 S3 =>
      rw [joinSegs_cons2, splitSegs_append_slash s (hns s (List.mem_cons_self _ _)),
        ih (by simp) (fun x hx => hns x (List.mem_cons_of_mem _ hx))]

theorem joinSegs_ne_nil (s0 : List Char) (S : List (List Char)) (h0 : s0 ≠ []) :
    joinSegs (s0 :: S) ≠ [] := by
  cases S with
  | nil => simpa [joinSegs]
  | cons s2 S2 =>
    rw [joinSegs_cons2]
    simp

theorem joinSegs_concat_empty : ∀ (S : List (List Char)), S ≠ [] →
    joinSegs (S ++ [[]]) = joinSegs S ++ ['/'] := by
  intro S
  induction S with
  | nil => intro h; exact absurd rfl h
  | cons s S2 ih =>
    intro _
    cases S2 with
    | nil => rfl
    | cons s2 S3 =>
      have h1 : (s :: s2 :: S3) ++ [[]] = s :: s2 :: (S3 ++ [[]]) := by simp
      have h2 : (s2 :: S3) ++ [[]] = s2 :: (S3 ++ [[]]) := by simp
      rw [h1, joinSegs_cons2, ← h2, ih (by simp), joinSegs_cons2]
      simp

theorem getLast?_joinSegs : ∀ (S : List (List Char)), S ≠ [] →
    (∀ s ∈ S, s ≠ [] ∧ '/' ∉ s) → (joinSegs S).getLast? ≠ some '/' := by
  intro S
  induction S with
  | nil => intro h; exact absurd rfl h
  | cons s S2 ih =>
    intro _ hgood
    cases S2 with
    | nil =>
      intro hcontra
      obtain ⟨hne, heq⟩ := List.mem_getLast?_eq_getLast
        (show '/' ∈ (joinSegs [s]).getLast? from hcontra)
      have : '/' ∈ joinSegs [s] := heq ▸ List.getLast_mem hne
      exact (hgood s (List.mem_cons_self _ _)).2 (by simpa [joinSegs] using this)
    | cons s2 S3 =>
      rw [joinSegs_cons2]
      have hne : joinSegs (s2 :: S3) ≠ [] :=
        joinSegs_ne_nil s2 S3 (hgood s2 (by simp)).1
      rw [List.getLast?_append_of_ne_nil _ (by simp)]
      have hsz : ('/' :: joinSegs (s2 :: S3)) = ['/'] ++ joinSegs (s2 :: S3) := rfl
      rw [hsz, List.getLast?_append_of_ne_nil _ hne]
      exact ih (by simp) (fun x hx => hgood x (List.mem_cons_of_mem _ hx))

/-! ## Segment resolution: canonical form and fixpoint -/

theorem normStep_empty (b : Bool) (st : List (List Char)) : normStep b st [] = st := by
  simp [normStep]

theorem normStep_dot (b : Bool) (st : List (List Char)) : normStep b st ['.'] = st := by
  simp [normStep]

theorem normStep_push (st : List (List Char)) (s : List Char)
    (h1 : s ≠ []) (h2 : s ≠ ['.']) (h3 : s ≠ dd) : normStep true st s = s :: st := by
  simp [normStep, h1, h2, h3]

theorem normStep_dd_all (st : List (List Char)) (h : ∀ x ∈ st, x = dd) :
    normStep true st dd = dd :: st := by
  cases st with
  | nil => simp [normStep, dd]
  | cons t ts =>
    have ht : t = dd := h t (by simp)
    subst ht
    simp [normStep, dd]

theorem canonStack_nil : CanonStack [] := ⟨[], [], rfl, by simp, by simp⟩

theorem canonStack_normStep {st : List (List Char)} (h : CanonStack st)
    {seg : List Char} (hseg : '/' ∉ seg) : CanonStack (normStep true st seg) := by
  obtain ⟨u, v, rfl, hu, hv⟩ := h
  by_cases h1 : seg = [] ∨ seg = ['.']
  · rw [show normStep true (u ++ v) seg = u ++ v by simp [normStep, h1]]
    exact ⟨u, v, rfl, hu, hv⟩
  · have hne : seg ≠ [] := fun hx => h1 (Or.inl hx)
    have hnd : seg ≠ ['.'] := fun hx => h1 (Or.inr hx)
    by_cases h2 : seg = dd
    · subst h2
      cases u with
      | nil =>
        rw [List.nil_append, normStep_dd_all v hv]
        refine ⟨[], dd :: v, by simp, by simp, ?_⟩
        intro s hs
        rcases List.mem_cons.mp hs with hx | hx
        · exact hx
        · exact hv s hx
      | cons a us =>
        have ha := hu a (by simp)
        have hstep : normStep true ((a :: us) ++ v) dd = us ++ v := by
          rw [List.cons_append]
          simp [normStep, dd] at ha ⊢
          simp [ha.2]
        rw [hstep]
        exact ⟨us, v, rfl, fun s hs => hu s (by simp [hs]), hv⟩
    · rw [normStep_push _ seg hne hnd h2]
      refine ⟨seg :: u, v, by simp, ?_, hv⟩
      intro s hs
      rcases List.mem_cons.mp hs with hx | hx
      · subst hx; exact ⟨⟨hne, hnd, hseg⟩, h2⟩
      · exact hu s hx

theorem canonStack_foldl : ∀ (l : List (List Char)), (∀ s ∈ l, '/' ∉ s) →
    ∀ st, CanonStack st → CanonStack (l.foldl (normStep true) st) := by
  intro l
  induction l with
  | nil => intro _ st h; simpa
  | cons s l2 ih =>
    intro hl st h
    rw [List.foldl_cons]
    exact ih (fun x hx => hl x (by simp [hx])) _ (canonStack_normStep h (hl s (by simp)))

theorem canonList_of_canonStack {st : List (List Char)} (h : CanonStack st) :
    CanonList st.reverse := by
  obtain ⟨u, v, rfl, hu, hv⟩ := h
  refine ⟨v.length, u.reverse, ?_, fun s hs => hu s (List.mem_reverse.mp hs)⟩
  rw [List.reverse_append]
  congr 1
  have hrep := List.eq_replicate_of_mem (fun b hb => hv b (List.mem_reverse.mp hb))
  rw [hrep, List.length_reverse]

theorem canonList_normalizeSegs (l : List (List Char)) (hl : ∀ s ∈ l, '/' ∉ s) :
    CanonList (normalizeSegs true l) :=
  canonList_of_canonStack (canonStack_foldl l hl [] canonStack_nil)

theorem foldl_push (w : List (List Char)) (hw : ∀ s ∈ w, GoodSeg s ∧ s ≠ dd) :
    ∀ st, w.foldl (normStep true) st = w.reverse ++ st := by
  induction w with
  | nil => intro st; simp
  | cons s w2 ih =>
    intro st
    obtain ⟨⟨h1, h2, _⟩, h3⟩ := hw s (by simp)
    rw [List.foldl_cons, normStep_push st s h1 h2 h3,
      ih (fun x hx => hw x (by simp [hx])) (s :: st)]
    simp

theorem foldl_dd : ∀ (k : Nat) (st : List (List Char)), (∀ s ∈ st, s = dd) →
    (List.replicate k dd).foldl (normStep true) st = List.replicate k dd ++ st := by
  intro k
  induction k with
  | zero => intro st _; simp
  | succ n ih =>
    intro st hst
    rw [List.replicate_succ, List.foldl_cons, normStep_dd_all st hst,
      ih (dd :: st) (fun s hs => by
        rcases List.mem_cons.mp hs with hx | hx
        exacts [hx, hst s hx])]
    have hsplit : List.replicate n dd ++ dd :: st = (List.replicate n dd ++ [dd]) ++ st := by
      simp
    rw [hsplit, ← List.replicate_succ', List.replicate_succ]

theorem normalizeSegs_fix {S : List (List Char)} (h : CanonList S) :
    normalizeSegs true S = S := by
  obtain ⟨k, w, rfl, hw⟩ := h
  unfold normalizeSegs
  rw [List.foldl_append, foldl_dd k [] (by simp), List.append_nil, foldl_push w hw]
  rw [List.reverse_append, List.reverse_reverse, List.reverse_replicate]

theorem normalizeSegs_skip2 (L : List (List Char)) :
    normalizeSegs true (['.'] :: [] :: L) = normalizeSegs true L := by
  unfold normalizeSegs
  rw [List.foldl_cons, List.foldl_cons, normStep_dot, normStep_empty]

theorem normalizeSegs_concat_empty (L : List (List Char)) :
    normalizeSegs true (L ++ [[]]) = normalizeSegs true L := by
  unfold normalizeSegs
  rw [List.foldl_append]
  simp [normStep_empty]

theorem canonList_elems {S : List (List Char)} (h : CanonList S) :
    ∀ s ∈ S, s ≠ [] ∧ '/' ∉ s := by
  obtain ⟨k, w, rfl, hw⟩ := h
  intro s hs
  rcases List.mem_append.mp hs with hx | hx
  · have hsd : s = dd := List.eq_of_mem_replicate hx
    subst hsd
    exact ⟨by simp [dd], by simp [dd]⟩
  · obtain ⟨⟨h1, _, h3⟩, _⟩ := hw s hx
    exact ⟨h1, h3⟩

/-! ## Evaluating `posixNormalizeL` on `".//" ++ l` -/

theorem splitSegs_dss (l : List Char) :
    splitSegs ('.' :: '/' :: '/' :: l) = ['.'] :: [] :: splitSegs l := by
  obtain ⟨s0, ss, h⟩ := splitSegs_exists l
  simp [splitSegs, h]

theorem posixNormalizeL_dss_of_empty (l : List Char)
    (h : normalizeSegs true (splitSegs l) = []) :
    posixNormalizeL ('.' :: '/' :: '/' :: l) =
      (if ('.' :: '/' :: '/' :: l).getLast? = some '/' then ['.', '/'] else ['.']) := by
  simp only [posixNormalizeL, splitSegs_dss]
  have hAbs : (('.' : Char) = '/') = False := by simp
  simp only [hAbs, decide_False, Bool.not_false, normalizeSegs_skip2, h]
  simp [joinSegs]

theorem posixNormalizeL_dss_of_ne (l : List Char) (S0 : List Char) (S1 : List (List Char))
    (h : normalizeSegs true (splitSegs l) = S0 :: S1) (h0 : S0 ≠ []) :
    posixNormalizeL ('.' :: '/' :: '/' :: l) =
      joinSegs (S0 :: S1) ++
        (if ('.' :: '/' :: '/' :: l).getLast? = some '/' then ['/'] else []) := by
  simp only [posixNormalizeL, splitSegs_dss]
  have hAbs : (('.' : Char) = '/') = False := by simp
  simp only [hAbs, decide_False, Bool.not_false, normalizeSegs_skip2, h]
  rw [if_neg (joinSegs_ne_nil S0 S1 h0)]
  simp

theorem posixNormalizeL_dss_idem (l : List Char) :
    posixNormalizeL ('.' :: '/' :: '/' :: posixNormalizeL ('.' :: '/' :: '/' :: l)) =
      posixNormalizeL ('.' :: '/' :: '/' :: l) := by
  have hCanon := canonList_normalizeSegs (splitSegs l) (no_slash_splitSegs l)
  cases hsplit : normalizeSegs true (splitSegs l) with
  | nil =>
    rw [posixNormalizeL_dss_of_empty l hsplit]
    by_cases hT : ('.' :: '/' :: '/' :: l).getLast? = some '/'
    · rw [if_pos hT]; decide
    · rw [if_neg hT]; decide
  | cons S0 S1 =>
    rw [hsplit] at hCanon
    have hgood := canonList_elems hCanon
    have h0 : S0 ≠ [] := (hgood S0 (by simp)).1
    have hnosl : ∀ s ∈ S0 :: S1, '/' ∉ s := fun s hs => (hgood s hs).2
    rw [posixNormalizeL_dss_of_ne l S0 S1 hsplit h0]
    by_cases hT : ('.' :: '/' :: '/' :: l).getLast? = some '/'
    · rw [if_pos hT]
      have hsplit2 : splitSegs (joinSegs (S0 :: S1) ++ ['/']) = (S0 :: S1) ++ [[]] := by
        rw [← joinSegs_concat_empty _ (by simp)]
        refine splitSegs_joinSegs _ (by simp) ?_
        intro s hs
        rcases List.mem_append.mp hs with hx | hx
        · exact hnosl s hx
        · simp only [List.mem_singleton] at hx
          simp [hx]
      have hsegs2 :
          normalizeSegs true (splitSegs (joinSegs (S0 :: S1) ++ ['/'])) = S0 :: S1 := by
        rw [hsplit2, normalizeSegs_concat_empty, normalizeSegs_fix hCanon]
      have hT2 : ('.' :: '/' :: '/' :: (joinSegs (S0 :: S1) ++ ['/'])).getLast? =
          some '/' := by
        have hform : ('.' :: '/' :: '/' :: (joinSegs (S0 :: S1) ++ ['/'])) =
            ('.' :: '/' :: '/' :: joinSegs (S0 :: S1)) ++ ['/'] := by simp
        rw [hform, List.getLast?_concat]
      rw [posixNormalizeL_dss_of_ne _ S0 S1 hsegs2 h0, if_pos hT2]
    · rw [if_neg hT]
      simp only [List.append_nil]
      have hsplit2 : splitSegs (joinSegs (S0 :: S1)) = S0 :: S1 :=
        splitSegs_joinSegs _ (by simp) hnosl
      have hsegs2 : normalizeSegs true (splitSegs (joinSegs (S0 :: S1))) = S0 :: S1 := by
        rw [hsplit2, normalizeSegs_fix hCanon]
      have hT2 : ('.' :: '/' :: '/' :: joinSegs (S0 :: S1)).getLast? ≠ some '/' := by
        have hne : joinSegs (S0 :: S1) ≠ [] := joinSegs_ne_nil S0 S1 h0
        have hform : ('.' :: '/' :: '/' :: joinSegs (S0 :: S1)) =
            ['.', '/', '/'] ++ joinSegs (S0 :: S1) := rfl
        rw [hform, List.getLast?_append_of_ne_nil _ hne]
        exact getLast?_joinSegs _ (by simp) hgood
      rw [posixNormalizeL_dss_of_ne _ S0 S1 hsegs2 h0, if_neg hT2]
      simp

theorem posixNormalizeL_ne_nil (cs : List Char) : posixNormalizeL cs ≠ [] := by
  cases cs with
  | nil => simp [posixNormalizeL]
  | cons c rest =>
    simp only [posixNormalizeL]
    split
    · split
      · simp
      · split <;> simp
    · next hbody =>
      intro hcontra
      rcases List.append_eq_nil.mp hcontra with ⟨hleft, _⟩
      split at hleft
      · exact absurd hleft (by simp)
      · exact hbody hleft

theorem normalizeDirPath_toList (p : String) (hp : p ≠ "") :
    normalizeDirPath p = (posixNormalizeL ('.' :: '/' :: '/' :: p.toList)).asString := by
  unfold normalizeDirPath posixJoin2
  rw [if_neg (show ¬("." ++ "/" = "") by decide), if_neg hp]
  unfold posixNormalize
  have hdata : ("." ++ "/" ++ "/" ++ p).toList = '.' :: '/' :: '/' :: p.toList := by
    show ("." ++ "/" ++ "/" ++ p).data = '.' :: '/' :: '/' :: p.data
    simp [String.data_append]
  rw [hdata]

/-- C9: path normalization is idempotent — for every input string `p`,
`normalizeDirPath (normalizeDirPath p) = normalizeDirPath p`, i.e.
normalizing an already-canonical path returns it unchanged. -/
theorem normalizeDirPath_idempotent (p : String) :
    normalizeDirPath (normalizeDirPath p) = normalizeDirPath p := by
  by_cases hp : p = ""
  · subst hp; decide
  · have hinner : normalizeDirPath p =
        (posixNormalizeL ('.' :: '/' :: '/' :: p.toList)).asString :=
      normalizeDirPath_toList p hp
    have hne : (posixNormalizeL ('.' :: '/' :: '/' :: p.toList)).asString ≠ "" := by
      intro hcontra
      exact posixNormalizeL_ne_nil ('.' :: '/' :: '/' :: p.toList)
        (by simpa using congrArg String.toList hcontra)
    rw [hinner, normalizeDirPath_toList _ hne, List.toList_asString]
    exact congrArg List.asString (posixNormalizeL_dss_idem p.toList)

/-! ## Snapshot update helpers: projections -/

@[simp] theorem data_node (d : DirData) (subs : List DirSnapshot) :
    DirSnapshot.data (.node d subs) = d := rfl

@[simp] theorem directories_node (d : DirData) (subs : List DirSnapshot) :
    DirSnapshot.directories (.node d subs) = subs := rfl

@[simp] theorem data_bumpDirCount (d : DirSnapshot) :
    DirSnapshot.data (bumpDirCount d) =
      { DirSnapshot.data d with
        directoryCount := (DirSnapshot.data d).directoryCount + 1 } := by
  cases d; rfl

@[simp] theorem directories_bumpDirCount (d : DirSnapshot) :
    DirSnapshot.directories (bumpDirCount d) = DirSnapshot.directories d := by
  cases d; rfl

@[simp] theorem data_markPartialChild (d : DirSnapshot) :
    DirSnapshot.data (markPartialChild d) =
      { DirSnapshot.data d with lastScanned := 0, isPartial := true } := by
  cases d; rfl

@[simp] theorem directories_markPartialChild (d : DirSnapshot) :
    DirSnapshot.directories (markPartialChild d) = DirSnapshot.directories d := by
  cases d; rfl

@[simp] theorem data_pushChildDir (c d : DirSnapshot) :
    DirSnapshot.data (pushChildDir c d) = DirSnapshot.data d := by
  cases d; rfl

@[simp] theorem directories_pushChildDir (c d : DirSnapshot) :
    DirSnapshot.directories (pushChildDir c d) =
      DirSnapshot.directories d ++ [c] := by
  cases d; rfl

@[simp] theorem data_pushMedia (m : MediaEntry) (d : DirSnapshot) :
    DirSnapshot.data (pushMedia m d) =
      { DirSnapshot.data d with media := (DirSnapshot.data d).media ++ [m] } := by
  cases d; rfl

@[simp] theorem directories_pushMedia (m : MediaEntry) (d : DirSnapshot) :
    DirSnapshot.directories (pushMedia m d) = DirSnapshot.directories d := by
  cases d; rfl

theorem data_coverFromPhoto (p : MediaEntry) (d : DirSnapshot) :
    DirSnapshot.data (coverFromPhoto p d) =
      (if (DirSnapshot.data d).cover.isNone then
        { DirSnapshot.data d with cover := some { p with
            directory := some ((DirSnapshot.data d).path, (DirSnapshot.data d).name) } }
      else DirSnapshot.data d) := by
  cases d with
  | node dt subs =>
    simp only [coverFromPhoto, data_node]
    split <;> simp

@[simp] theorem directories_coverFromPhoto (p : MediaEntry) (d : DirSnapshot) :
    DirSnapshot.directories (coverFromPhoto p d) = DirSnapshot.directories d := by
  cases d with
  | node dt subs =>
    simp only [coverFromPhoto]
    split <;> rfl

@[simp] theorem data_pushMetaFile (f : String) (d : DirSnapshot) :
    DirSnapshot.data (pushMetaFile f d) =
      { DirSnapshot.data d with metaFile := (DirSnapshot.data d).metaFile ++ [f] } := by
  cases d; rfl

@[simp] theorem directories_pushMetaFile (f : String) (d : DirSnapshot) :
    DirSnapshot.directories (pushMetaFile f d) = DirSnapshot.directories d := by
  cases d; rfl

@[simp] theorem data_finalizeCounts (d : DirSnapshot) :
    DirSnapshot.data (finalizeCounts d) =
      { DirSnapshot.data d with
        mediaCount := (DirSnapshot.data d).media.length
        videoCount := ((DirSnapshot.data d).media.filter (fun m => m.isVideo)).length } := by
  cases d; rfl

@[simp] theorem directories_finalizeCounts (d : DirSnapshot) :
    DirSnapshot.directories (finalizeCounts d) = DirSnapshot.directories d := by
  cases d; rfl

/-! ## Scanner lemmas -/

theorem scanList_nil (env : ScanEnv) (now : Nat) (settings : DirectoryScanSettings)
    (rel abs d : _) : scanList env now settings rel abs .nil d = .ok d := rfl

theorem scanList_coverOnly_dirs (env : ScanEnv) (now : Nat)
    (settings : DirectoryScanSettings) (rel abs : String)
    (hco : settings.coverOnly = true) :
    ∀ (entries : FSEntries) (d r : DirSnapshot),
      scanList env now settings rel abs entries d = .ok r →
      DirSnapshot.directories r = DirSnapshot.directories d
  | .nil, d, r, h => by
    rw [scanList_nil] at h
    cases h
    rfl
  | .cons file node rest, d, r, h => by
    unfold scanList at h
    cases node with
    | dir c m entries =>
      rw [if_pos (by simp [hco])] at h
      rw [scanList_coverOnly_dirs env now settings rel abs hco rest _ r h]
      simp
    | file c m =>
      simp only [hco, Bool.or_true, Bool.true_or, Bool.not_true, if_true, ite_self] at h
      split at h
      · -- photo branch
        split at h
        · exact scanList_coverOnly_dirs env now settings rel abs hco rest _ r h
        · split at h
          · exact absurd h (by simp)
          · cases h
            simp
      · exact scanList_coverOnly_dirs env now settings rel abs hco rest _ r h

theorem scanDirectory_coverOnly_dirs (env : ScanEnv) (now : Nat) (node : FSNode)
    (rel : String) (settings : DirectoryScanSettings) (r : DirSnapshot)
    (hco : settings.coverOnly = true)
    (h : scanDirectory env now node rel settings = .ok r) :
    DirSnapshot.directories r = [] := by
  unfold scanDirectory at h
  split at h
  · cases h; rfl
  · cases node with
    | file c m => exact absurd h (by simp)
    | dir c m entries =>
      dsimp only at h
      split at h
      · exact absurd h (by simp)
      · next d2 heq =>
        cases h
        rw [directories_finalizeCounts]
        rw [scanList_coverOnly_dirs env now settings _ _ hco entries _ d2 heq]
        rfl

theorem scanList_children_partial (env : ScanEnv) (now : Nat)
    (settings : DirectoryScanSettings) (rel abs : String) :
    ∀ (entries : FSEntries) (d r : DirSnapshot),
      scanList env now settings rel abs entries d = .ok r →
      ∀ c ∈ DirSnapshot.directories r,
        c ∈ DirSnapshot.directories d ∨
          (DirData.isPartial (DirSnapshot.data c) = true ∧
           (DirSnapshot.data c).lastScanned = 0 ∧
           DirSnapshot.directories c = [])
  | .nil, d, r, h => by
    rw [scanList_nil] at h
    cases h
    intro c hc
    exact Or.inl hc
  | .cons file node rest, d, r, h => by
    unfold scanList at h
    cases node with
    | dir c m entries =>
      dsimp only at h
      split at h
      · intro c2 hc2
        rcases scanList_children_partial env now settings rel abs rest _ r h c2 hc2 with
          hx | hx
        · left; simpa using hx
        · right; exact hx
      · split at h
        · exact absurd h (by simp)
        · next ch heq =>
          intro c2 hc2
          rcases scanList_children_partial env now settings rel abs rest _ r h c2 hc2 with
            hx | hx
          · rw [directories_pushChildDir, directories_bumpDirCount] at hx
            rcases List.mem_append.mp hx with hy | hy
            · exact Or.inl hy
            · right
              simp only [List.mem_singleton] at hy
              subst hy
              refine ⟨by simp, by simp, ?_⟩
              rw [directories_markPartialChild]
              exact scanDirectory_coverOnly_dirs env now _ _ _ ch rfl heq
          · right; exact hx
    | file c m =>
      dsimp only at h
      split at h
      · -- photo
        split at h
        · exact scanList_children_partial env now settings rel abs rest _ r h
        · split at h
          · exact absurd h (by simp)
          · split at h
            · cases h
              intro c2 hc2
              left
              simpa using hc2
            · intro c2 hc2
              rcases scanList_children_partial env now settings rel abs rest _ r h c2 hc2
                with hx | hx
              · left; simpa using hx
              · right; exact hx
      · split at h
        · -- video
          split at h
          · exact scanList_children_partial env now settings rel abs rest _ r h
          · split at h
            · exact scanList_children_partial env now settings rel abs rest _ r h
            · intro c2 hc2
              rcases scanList_children_partial env now settings rel abs rest _ r h c2 hc2
                with hx | hx
              · left; simpa using hx
              · right; exact hx
        · split at h
          · -- meta file
            split at h
            · exact scanList_children_partial env now settings rel abs rest _ r h
            · intro c2 hc2
              rcases scanList_children_partial env now settings rel abs rest _ r h c2 hc2
                with hx | hx
              · left; simpa using hx
              · right; exact hx
          · exact scanList_children_partial env now settings rel abs rest _ r h

@[simp] theorem media_coverFromPhoto (p : MediaEntry) (d : DirSnapshot) :
    (DirSnapshot.data (coverFromPhoto p d)).media = (DirSnapshot.data d).media := by
  cases d with
  | node dt subs =>
    simp only [coverFromPhoto]
    split <;> rfl

theorem scanList_noMetadata_media (env : ScanEnv) (now : Nat)
    (settings : DirectoryScanSettings) (rel abs : String)
    (hnm : settings.noMetadata = true) :
    ∀ (entries : FSEntries) (d r : DirSnapshot),
      scanList env now settings rel abs entries d = .ok r →
      (∀ m ∈ (DirSnapshot.data d).media, m.metadata = none) →
      ∀ m ∈ (DirSnapshot.data r).media, m.metadata = none
  | .nil, d, r, h => by
    rw [scanList_nil] at h
    cases h
    exact id
  | .cons file node rest, d, r, h => by
    unfold scanList at h
    cases node with
    | dir c m entries =>
      dsimp only at h
      split at h
      · intro hd
        refine scanList_noMetadata_media env now settings rel abs hnm rest _ r h ?_
        simpa using hd
      · split at h
        · exact absurd h (by simp)
        · intro hd
          refine scanList_noMetadata_media env now settings rel abs hnm rest _ r h ?_
          simpa using hd
    | file c m =>
      dsimp only at h
      rw [if_pos hnm, if_pos hnm] at h
      dsimp only at h
      split at h
      · -- photo
        split at h
        · exact scanList_noMetadata_media env now settings rel abs hnm rest _ r h
        · split at h
          · cases h
            intro hd m2 hm2
            simp only [data_pushMedia, media_coverFromPhoto, List.mem_append,
              List.mem_singleton] at hm2
            rcases hm2 with hx | hx
            · exact hd m2 hx
            · subst hx; rfl
          · intro hd
            refine scanList_noMetadata_media env now settings rel abs hnm rest _ r h ?_
            intro m2 hm2
            simp only [data_pushMedia, media_coverFromPhoto, List.mem_append,
              List.mem_singleton] at hm2
            rcases hm2 with hx | hx
            · exact hd m2 hx
            · subst hx; rfl
      · split at h
        · -- video
          split at h
          · exact scanList_noMetadata_media env now settings rel abs hnm rest _ r h
          · intro hd
            refine scanList_noMetadata_media env now settings rel abs hnm rest _ r h ?_
            intro m2 hm2
            simp only [data_pushMedia, List.mem_append, List.mem_singleton] at hm2
            rcases hm2 with hx | hx
            · exact hd m2 hx
            · subst hx; rfl
        · split at h
          · split at h
            · exact scanList_noMetadata_media env now settings rel abs hnm rest _ r h
            · intro hd
              refine scanList_noMetadata_media env now settings rel abs hnm rest _ r h ?_
              simpa using hd
          · exact scanList_noMetadata_media env now settings rel abs hnm rest _ r h

theorem pushChildDir_bump (c d : DirSnapshot) :
    pushChildDir c (bumpDirCount d) = bumpDirCount (pushChildDir c d) := by
  cases d; rfl

theorem pushMedia_bump (m : MediaEntry) (d : DirSnapshot) :
    pushMedia m (bumpDirCount d) = bumpDirCount (pushMedia m d) := by
  cases d; rfl

theorem pushMetaFile_bump (f : String) (d : DirSnapshot) :
    pushMetaFile f (bumpDirCount d) = bumpDirCount (pushMetaFile f d) := by
  cases d; rfl

theorem coverFromPhoto_bump (p : MediaEntry) (d : DirSnapshot) :
    coverFromPhoto p (bumpDirCount d) = bumpDirCount (coverFromPhoto p d) := by
  cases d with
  | node dt subs =>
    by_cases hc : dt.cover.isNone = true
    · simp [coverFromPhoto, bumpDirCount, hc]
    · simp [coverFromPhoto, bumpDirCount, hc]

theorem finalizeCounts_bump (d : DirSnapshot) :
    finalizeCounts (bumpDirCount d) = bumpDirCount (finalizeCounts d) := by
  cases d; rfl

theorem scanList_bump (env : ScanEnv) (now : Nat) (settings : DirectoryScanSettings)
    (rel abs : String) :
    ∀ (entries : FSEntries) (d : DirSnapshot),
      scanList env now settings rel abs entries (bumpDirCount d) =
        (scanList env now settings rel abs entries d).map bumpDirCount
  | .nil, d => by
    rw [scanList_nil, scanList_nil]
    rfl
  | .cons file node rest, d => by
    unfold scanList
    cases node with
    | dir c m entries =>
      dsimp only
      cases hC : (settings.noDirectory || settings.coverOnly ||
          excludeDir env (.dir c m entries) file rel abs) with
      | true =>
        simp only [Bool.false_eq_true, reduceIte]
        exact scanList_bump env now settings rel abs rest (bumpDirCount d)
      | false =>
        simp only [Bool.false_eq_true, reduceIte]
        cases hres : scanDirectory env now (.dir c m entries) (posixJoin2 rel file)
            { coverOnly := true } with
        | error e => rfl
        | ok ch =>
          dsimp only
          rw [pushChildDir_bump]
          exact scanList_bump env now settings rel abs rest _
    | file c m =>
      dsimp only
      cases hp : env.isPhoto (posixNormalize (posixJoin2 abs file)) with
      | true =>
        simp only [Bool.false_eq_true, reduceIte]
        cases hnp : settings.noPhoto with
        | true =>
          simp only [Bool.false_eq_true, reduceIte]
          exact scanList_bump env now settings rel abs rest d
        | false =>
          simp only [Bool.false_eq_true, reduceIte]
          cases hmd : (if settings.noMetadata = true then Except.ok none
              else Except.map some (env.loadPhotoMetadata
                (posixNormalize (posixJoin2 abs file)))) with
          | error e => rfl
          | ok md =>
            dsimp only
            rw [coverFromPhoto_bump, pushMedia_bump]
            cases hco : settings.coverOnly with
            | true =>
              simp only [Bool.false_eq_true, reduceIte]
              rfl
            | false =>
              simp only [Bool.false_eq_true, reduceIte]
              exact scanList_bump env now settings rel abs rest _
      | false =>
        simp only [Bool.false_eq_true, reduceIte]
        cases hv : env.isVideo (posixNormalize (posixJoin2 abs file)) with
        | true =>
          simp only [Bool.false_eq_true, reduceIte]
          cases hskip : (decide (env.videoEnabled = false) || settings.noVideo ||
              settings.coverOnly) with
          | true =>
            simp only [Bool.false_eq_true, reduceIte]
            exact scanList_bump env now settings rel abs rest d
          | false =>
            simp only [Bool.false_eq_true, reduceIte]
            cases hmd : (if settings.noMetadata = true then Except.ok none
                else Except.map some (env.loadVideoMetadata
                  (posixNormalize (posixJoin2 abs file)))) with
            | error e =>
              exact scanList_bump env now settings rel abs rest d
            | ok md =>
              dsimp only
              rw [pushMedia_bump]
              exact scanList_bump env now settings rel abs rest _
        | false =>
          simp only [Bool.false_eq_true, reduceIte]
          cases hmf : env.isMetaFile (posixNormalize (posixJoin2 abs file)) with
          | true =>
            simp only [Bool.false_eq_true, reduceIte]
            cases hskip : (!isEnabledMetaFile env (posixNormalize (posixJoin2 abs file)) ||
                settings.noMetaFile || settings.coverOnly) with
            | true =>
              simp only [Bool.false_eq_true, reduceIte]
              exact scanList_bump env now settings rel abs rest d
            | false =>
              simp only [Bool.false_eq_true, reduceIte]
              rw [pushMetaFile_bump]
              exact scanList_bump env now settings rel abs rest _
          | false =>
            simp only [Bool.false_eq_true, reduceIte]
            exact scanList_bump env now settings rel abs rest d

theorem scanList_append (env : ScanEnv) (now : Nat) (settings : DirectoryScanSettings)
    (rel abs : String) (hco : settings.coverOnly = false) :
    ∀ (pre rest : FSEntries) (d : DirSnapshot),
      scanList env now settings rel abs (appendEntries pre rest) d =
        (match scanList env now settings rel abs pre d with
          | .error e => .error e
          | .ok d2 => scanList env now settings rel abs rest d2)
  | .nil, rest, d => by
    rw [show appendEntries .nil rest = rest from rfl, scanList_nil]
  | .cons file node pre2, rest, d => by
    rw [show appendEntries (.cons file node pre2) rest =
      .cons file node (appendEntries pre2 rest) from rfl]
    conv_lhs => rw [scanList.eq_def]
    conv_rhs => rw [scanList.eq_def]
    cases node with
    | dir c m entries =>
      dsimp only
      cases hC : (settings.noDirectory || settings.coverOnly ||
          excludeDir env (.dir c m entries) file rel abs) with
      | true =>
        simp only [reduceIte]
        exact scanList_append env now settings rel abs hco pre2 rest (bumpDirCount d)
      | false =>
        simp only [Bool.false_eq_true, reduceIte]
        cases hres : scanDirectory env now (.dir c m entries) (posixJoin2 rel file)
            { coverOnly := true } with
        | error e => rfl
        | ok ch =>
          dsimp only
          exact scanList_append env now settings rel abs hco pre2 rest _
    | file c m =>
      dsimp only
      cases hp : env.isPhoto (posixNormalize (posixJoin2 abs file)) with
      | true =>
        simp only [reduceIte]
        cases hnp : settings.noPhoto with
        | true =>
          simp only [reduceIte]
          exact scanList_append env now settings rel abs hco pre2 rest d
        | false =>
          simp only [Bool.false_eq_true, reduceIte]
          cases hmd : (if settings.noMetadata = true then Except.ok none
              else Except.map some (env.loadPhotoMetadata
                (posixNormalize (posixJoin2 abs file)))) with
          | error e => rfl
          | ok md =>
            dsimp only
            rw [hco]
            simp only [Bool.false_eq_true, reduceIte]
            exact scanList_append env now settings rel abs hco pre2 rest _
      | false =>
        simp only [Bool.false_eq_true, reduceIte]
        cases hv : env.isVideo (posixNormalize (posixJoin2 abs file)) with
        | true =>
          simp only [reduceIte]
          cases hskip : (decide (env.videoEnabled = false) || settings.noVideo ||
              settings.coverOnly) with
          | true =>
            simp only [reduceIte]
            exact scanList_append env now settings rel abs hco pre2 rest d
          | false =>
            simp only [Bool.false_eq_true, reduceIte]
            cases hmd : (if settings.noMetadata = true then Except.ok none
                else Except.map some (env.loadVideoMetadata
                  (posixNormalize (posixJoin2 abs file)))) with
            | error e =>
              exact scanList_append env now settings rel abs hco pre2 rest d
            | ok md =>
              dsimp only
              exact scanList_append env now settings rel abs hco pre2 rest _
        | false =>
          simp only [Bool.false_eq_true, reduceIte]
          cases hmf : env.isMetaFile (posixNormalize (posixJoin2 abs file)) with
          | true =>
            simp only [reduceIte]
            cases hskip : (!isEnabledMetaFile env (posixNormalize (posixJoin2 abs file)) ||
                settings.noMetaFile || settings.coverOnly) with
            | true =>
              simp only [reduceIte]
              exact scanList_append env now settings rel abs hco pre2 rest d
            | false =>
              simp only [Bool.false_eq_true, reduceIte]
              exact scanList_append env now settings rel abs hco pre2 rest _
          | false =>
            simp only [Bool.false_eq_true, reduceIte]
            exact scanList_append env now settings rel abs hco pre2 rest d

theorem scanList_excluded_child (env : ScanEnv) (now : Nat)
    (settings : DirectoryScanSettings) (rel abs : String)
    (hco : settings.coverOnly = false) (cct cmt : Nat) (centries : FSEntries)
    (cname : String)
    (hexcl : excludeDir env (.dir cct cmt centries) cname rel abs = true)
    (pre post : FSEntries) (d : DirSnapshot) :
    scanList env now settings rel abs
        (appendEntries pre (.cons cname (.dir cct cmt centries) post)) d =
      (scanList env now settings rel abs (appendEntries pre post) d).map bumpDirCount := by
  rw [scanList_append env now settings rel abs hco,
    scanList_append env now settings rel abs hco]
  cases hpre : scanList env now settings rel abs pre d with
  | error e => rfl
  | ok dmid =>
    dsimp only
    conv_lhs => rw [scanList.eq_def]
    dsimp only
    have hcond : (settings.noDirectory || settings.coverOnly ||
        excludeDir env (.dir cct cmt centries) cname rel abs) = true := by
      simp [hexcl]
    rw [hcond]
    simp only [reduceIte]
    exact scanList_bump env now settings rel abs post dmid

theorem coverInv_initial (now : Nat) (node : FSNode) (rel : String) :
    CoverInv (initialSnap now node rel) := by
  unfold CoverInv initialSnap
  simp

theorem coverInv_bump {d : DirSnapshot} (h : CoverInv d) : CoverInv (bumpDirCount d) := by
  unfold CoverInv at h ⊢
  simpa using h

theorem coverInv_pushChildDir {d : DirSnapshot} (c : DirSnapshot) (h : CoverInv d) :
    CoverInv (pushChildDir c d) := by
  unfold CoverInv at h ⊢
  simpa using h

theorem coverInv_pushMetaFile {d : DirSnapshot} (f : String) (h : CoverInv d) :
    CoverInv (pushMetaFile f d) := by
  unfold CoverInv at h ⊢
  simpa using h

theorem coverInv_finalize {d : DirSnapshot} (h : CoverInv d) :
    CoverInv (finalizeCounts d) := by
  unfold CoverInv at h ⊢
  simpa using h

theorem coverInv_pushMedia_video {d : DirSnapshot} (v : MediaEntry)
    (hv : v.isVideo = true) (h : CoverInv d) : CoverInv (pushMedia v d) := by
  unfold CoverInv at h ⊢
  obtain ⟨h1, h2⟩ := h
  simp only [data_pushMedia]
  have hfv : List.find? (fun m => !m.isVideo) [v] = none := by
    rw [List.find?_cons_of_neg _ (by simp [hv]), List.find?_nil]
  refine ⟨by simpa using h1, ?_⟩
  simp only [List.find?_append, hfv, Option.or_none]
  simpa using h2

theorem coverInv_photo {d : DirSnapshot} (p : MediaEntry) (hp : p.isVideo = false)
    (h : CoverInv d) : CoverInv (pushMedia p (coverFromPhoto p d)) := by
  obtain ⟨h1, h2⟩ := h
  unfold CoverInv
  have hfp : List.find? (fun m => !m.isVideo) [p] = some p :=
    List.find?_cons_of_pos _ (by simp [hp])
  cases hcov : (DirSnapshot.data d).cover with
  | none =>
    have hf : (DirSnapshot.data d).media.find? (fun m => !m.isVideo) = none := by
      cases hff : (DirSnapshot.data d).media.find? (fun m => !m.isVideo) with
      | none => rfl
      | some m0 =>
        rw [hff, hcov] at h2
        exact absurd h2 (by simp)
    have hproj : DirSnapshot.data (pushMedia p (coverFromPhoto p d)) =
        { DirSnapshot.data d with
          cover := some { p with
            directory := some ((DirSnapshot.data d).path, (DirSnapshot.data d).name) }
          media := (DirSnapshot.data d).media ++ [p] } := by
      rw [data_pushMedia, media_coverFromPhoto, data_coverFromPhoto,
        if_pos (by simp [hcov])]
    rw [hproj]
    dsimp only
    rw [List.find?_append, hf, Option.none_or, hfp]
    exact ⟨h1, rfl⟩
  | some c0 =>
    have hm0 : ∃ m0, (DirSnapshot.data d).media.find? (fun m => !m.isVideo) = some m0 := by
      cases hff : (DirSnapshot.data d).media.find? (fun m => !m.isVideo) with
      | none =>
        rw [hff, hcov] at h2
        exact absurd h2 (by simp)
      | some m0 => exact ⟨m0, rfl⟩
    obtain ⟨m0, hm0⟩ := hm0
    have hproj : DirSnapshot.data (pushMedia p (coverFromPhoto p d)) =
        { DirSnapshot.data d with media := (DirSnapshot.data d).media ++ [p] } := by
      rw [data_pushMedia, media_coverFromPhoto, data_coverFromPhoto,
        if_neg (by simp [hcov])]
    rw [hproj]
    dsimp only
    rw [List.find?_append, hm0, Option.or_some]
    rw [hm0] at h2
    exact ⟨h1, h2⟩

theorem scanList_cover_inv (env : ScanEnv) (now : Nat)
    (settings : DirectoryScanSettings) (rel abs : String) :
    ∀ (entries : FSEntries) (d r : DirSnapshot),
      scanList env now settings rel abs entries d = .ok r →
      CoverInv d → CoverInv r
  | .nil, d, r, h => by
    rw [scanList_nil] at h
    cases h
    exact id
  | .cons file node rest, d, r, h => by
    unfold scanList at h
    cases node with
    | dir c m entries =>
      dsimp only at h
      split at h
      · intro hd
        exact scanList_cover_inv env now settings rel abs rest _ r h (coverInv_bump hd)
      · split at h
        · exact absurd h (by simp)
        · intro hd
          exact scanList_cover_inv env now settings rel abs rest _ r h
            (coverInv_pushChildDir _ (coverInv_bump hd))
    | file c m =>
      dsimp only at h
      split at h
      · split at h
        · exact scanList_cover_inv env now settings rel abs rest _ r h
        · split at h
          · exact absurd h (by simp)
          · split at h
            · cases h
              intro hd
              exact coverInv_photo _ rfl hd
            · intro hd
              exact scanList_cover_inv env now settings rel abs rest _ r h
                (coverInv_photo _ rfl hd)
      · split at h
        · split at h
          · exact scanList_cover_inv env now settings rel abs rest _ r h
          · split at h
            · exact scanList_cover_inv env now settings rel abs rest _ r h
            · intro hd
              exact scanList_cover_inv env now settings rel abs rest _ r h
                (coverInv_pushMedia_video _ rfl hd)
        · split at h
          · split at h
            · exact scanList_cover_inv env now settings rel abs rest _ r h
            · intro hd
              exact scanList_cover_inv env now settings rel abs rest _ r h
                (coverInv_pushMetaFile _ hd)
          · exact scanList_cover_inv env now settings rel abs rest _ r h

/-! ## Claims -/

/-- C6: for every node and every settings with `noPhoto = true`,
`noMetaFile = true` and `noVideo = true`, `scanDirectory` returns the
empty-but-valid initial snapshot built from the stat alone (empty media,
sidecar and children lists, `mediaCount = 0`) — without listing the
directory: the result does not depend on the directory's entries at all
(the theorem holds for an arbitrary node, even a plain file, whose listing
would fail). -/
theorem scanDirectory_all_disabled_short_circuits (env : ScanEnv) (now : Nat)
    (node : FSNode) (rel : String) (settings : DirectoryScanSettings)
    (hp : settings.noPhoto = true) (hm : settings.noMetaFile = true)
    (hv : settings.noVideo = true) :
    scanDirectory env now node rel settings =
      .ok (initialSnap now node (normalizeDirPath rel)) := by
  unfold scanDirectory
  rw [hp, hm, hv]
  rfl

/-- Witness for C6: a directory that does contain a photo and a
subdirectory still yields the empty snapshot when all three content
switches are set. -/
theorem scanDirectory_all_disabled_short_circuits_witness :
    scanDirectory baseEnv 5 fsC2w "d"
        { noMetaFile := true, noVideo := true, noPhoto := true } =
      .ok (.node
        { name := "d", path := "./", lastModified := 2, lastScanned := 5,
          isPartial := false, mediaCount := 0, videoCount := 0, directoryCount := 0,
          cover := none, validCover := false, media := [], metaFile := [] } []) :=
  scanDirectory_all_disabled_short_circuits baseEnv 5 fsC2w "d"
    { noMetaFile := true, noVideo := true, noPhoto := true } rfl rfl rfl

/-- C8: every child snapshot appended to the `directories` list of a
snapshot returned by `scanDirectory` is partial: it has `isPartial = true`
and `lastScanned = 0`; moreover such a child has an empty `directories`
list of its own (its scan ran with `coverOnly = true`, which skips
subdirectories), so the claim holds at every depth of the returned tree. -/
theorem scanDirectory_children_partial (env : ScanEnv) (now : Nat) (node : FSNode)
    (rel : String) (settings : DirectoryScanSettings) (d : DirSnapshot)
    (h : scanDirectory env now node rel settings = .ok d) :
    ∀ c ∈ DirSnapshot.directories d,
      DirData.isPartial (DirSnapshot.data c) = true ∧
      (DirSnapshot.data c).lastScanned = 0 ∧
      DirSnapshot.directories c = [] := by
  unfold scanDirectory at h
  split at h
  · cases h
    intro c hc
    exact absurd hc (by simp [initialSnap])
  · cases node with
    | file c m => exact absurd h (by simp)
    | dir c m entries =>
      dsimp only at h
      split at h
      · exact absurd h (by simp)
      · next d2 heq =>
        cases h
        intro c2 hc2
        rw [directories_finalizeCounts] at hc2
        rcases scanList_children_partial env now settings _ _ entries _ d2 heq c2 hc2 with
          hx | hx
        · exact absurd hx (by simp [initialSnap])
        · exact hx

/-- Witness for C8: in the concrete scan of a root with one subdirectory,
the (single) appended child snapshot is partial with `lastScanned = 0` and
no children. -/
theorem scanDirectory_children_partial_witness :
    (DirSnapshot.directories (okSnap (scanDirectory baseEnv 100 fsD1 "" {}))).all
      (fun c => DirData.isPartial (DirSnapshot.data c) &&
        ((DirSnapshot.data c).lastScanned == 0) &&
        (DirSnapshot.directories c).isEmpty) = true := by
  have h := scanDirectory_children_partial baseEnv 100 fsD1 "" {}
    (okSnap (scanDirectory baseEnv 100 fsD1 "" {})) rfl
  refine List.all_eq_true.mpr ?_
  intro c hc
  obtain ⟨h1, h2, h3⟩ := h c hc
  simp [h1, h2, h3]

/-- C10: `scanDirectoryNoMetadata` mutates the caller-supplied settings
object: in the explicit-state model of the JS reference mutation
(`settings.noMetadata = true`), the settings state visible to the caller
after the call is the passed settings with `noMetadata` forced to `true`
(all other fields preserved), and exactly that state was given to the
delegated `scanDirectory` call — so later reuse of the settings object
observes the change. -/
theorem scanDirectoryNoMetadata_mutates_caller_settings (env : ScanEnv) (now : Nat)
    (node : FSNode) (rel : String) (settings : DirectoryScanSettings) :
    scanDirectoryNoMetadata env now node rel settings =
      (scanDirectory env now node rel { settings with noMetadata := true },
        { settings with noMetadata := true }) := rfl

/-- C5: video metadata failure is recovered locally while photo metadata
failure aborts the scan: a directory with three loadable videos and one
video whose metadata load throws yields a successful snapshot with
`videoCount = 3` (the failing video skipped, the remaining entries still
processed, in order), whereas a directory with one photo whose metadata
load throws makes the whole `scanDirectory` call fail. -/
theorem scanDirectory_video_failure_isolation :
    (scanDirectory envC5 100 fsC5v "" {}).isOk = true ∧
    DirData.videoCount (DirSnapshot.data (okSnap (scanDirectory envC5 100 fsC5v "" {}))) = 3 ∧
    DirData.mediaCount (DirSnapshot.data (okSnap (scanDirectory envC5 100 fsC5v "" {}))) = 3 ∧
    (DirSnapshot.data (okSnap (scanDirectory envC5 100 fsC5v "" {}))).media.map
      (fun m => m.name) = ["v1.mp4", "v2.mp4", "v3.mp4"] ∧
    scanDirectory envC5 100 fsC5p "" {} = .error (.metadataFailure "exif fail") :=
  ⟨rfl, rfl, rfl, rfl, rfl⟩

/-- C1 counterexample: scanning a root whose only content is a single photo
at depth 2 produces no cover anywhere — the root snapshot's `cover` is
null, the intermediate child snapshot's `cover` is null, and the probe did
not recurse (the child snapshot has no children) — contradicting both the
claimed recursive cover chain and the cover propagation to every
ancestor. -/
theorem cover_propagation_counterexample :
    (DirSnapshot.data (okSnap (scanDirectory baseEnv 100 fsC1 "" {}))).cover = none ∧
    (DirSnapshot.directories (okSnap (scanDirectory baseEnv 100 fsC1 "" {}))).map
      (fun c => (DirSnapshot.data c).cover) = [none] ∧
    (DirSnapshot.directories (okSnap (scanDirectory baseEnv 100 fsC1 "" {}))).map
      (fun c => (DirSnapshot.directories c).length) = [0] := ⟨rfl, rfl, rfl⟩

/-- C1 amended: the cover probe is shallow, not recursive — any scan with
`coverOnly = true` returns an empty `directories` list (it never recurses
into subdirectories) — and cover propagation reaches exactly one level: for
a root whose subdirectory directly contains a photo, the appended child
snapshot is partial (`isPartial = true`, `lastScanned = 0`) and carries the
photo as its own cover, while the root's own `cover` field stays null. -/
theorem cover_probe_shallow_and_depth1 :
    (∀ (env : ScanEnv) (now : Nat) (node : FSNode) (rel : String)
        (settings : DirectoryScanSettings) (r : DirSnapshot),
      settings.coverOnly = true → scanDirectory env now node rel settings = .ok r →
      DirSnapshot.directories r = []) ∧
    ((DirSnapshot.directories (okSnap (scanDirectory baseEnv 100 fsD1 "" {}))).map
        (fun c => ((DirSnapshot.data c).name, DirData.isPartial (DirSnapshot.data c),
          (DirSnapshot.data c).lastScanned,
          (DirSnapshot.data c).cover.map (fun mm => mm.name))) =
      [("a", true, 0, some "p.jpg")] ∧
     (DirSnapshot.data (okSnap (scanDirectory baseEnv 100 fsD1 "" {}))).cover = none) :=
  ⟨fun env now node rel settings r hco h =>
      scanDirectory_coverOnly_dirs env now node rel settings r hco h,
    rfl, rfl⟩

/-- Witness for the amended C1: the general cover-probe part applied to a
concrete cover-only scan of a root that has a subdirectory. -/
theorem cover_probe_shallow_and_depth1_witness :
    DirSnapshot.directories (okSnap (scanDirectory baseEnv 100 fsD1 "a"
      { coverOnly := true })) = [] :=
  cover_probe_shallow_and_depth1.1 baseEnv 100 fsD1 "a" { coverOnly := true }
    (okSnap (scanDirectory baseEnv 100 fsD1 "a" { coverOnly := true })) rfl rfl

/-- C2 counterexample: `scanDirectoryNoMetadata` does not return a fully
metadata-less tree — the recursive cover-probe child scan is issued with
only `coverOnly` set (the `noMetadata` flag is not propagated), so the
media inside the partial child snapshot carries loaded metadata. -/
theorem noMetadata_tree_counterexample :
    ((DirSnapshot.directories (okSnap
        (scanDirectoryNoMetadata baseEnv 100 fsD1 "" {}).1)).map
      (fun c => (DirSnapshot.data c).media.map (fun m => m.metadata))) = [[some 7]] := rfl

/-- C3 counterexample: with exclusion rule `"secret"`, a root whose single
subdirectory `secret` (containing a photo) is excluded still reports
`directoryCount = 1` — the count is incremented before the exclusion check —
while media aggregates stay 0 and the subtree is not scanned. -/
theorem excluded_dir_directoryCount_counterexample :
    DirData.directoryCount (DirSnapshot.data (okSnap
      (scanDirectory envC3 100 fsC3 "" {}))) = 1 ∧
    DirData.mediaCount (DirSnapshot.data (okSnap
      (scanDirectory envC3 100 fsC3 "" {}))) = 0 ∧
    DirSnapshot.directories (okSnap (scanDirectory envC3 100 fsC3 "" {})) = [] :=
  ⟨rfl, rfl, rfl⟩

/-- C4 counterexample: in a directory listing a video before a photo (media
not disabled), the first media entry encountered is the video, yet the
snapshot's cover is the photo — videos never become covers — and the cover
is not marked valid: `validCover` remains `false`. -/
theorem first_media_cover_counterexample :
    (DirSnapshot.data (okSnap (scanDirectory baseEnv 100 fsC4 "" {}))).media.head?.map
      (fun m => m.name) = some "v.mp4" ∧
    (DirSnapshot.data (okSnap (scanDirectory baseEnv 100 fsC4 "" {}))).cover.map
      (fun m => m.name) = some "p.jpg" ∧
    (DirSnapshot.data (okSnap (scanDirectory baseEnv 100 fsC4 "" {}))).validCover = false :=
  ⟨rfl, rfl, rfl⟩

theorem ite_true_false (c : Prop) [Decidable c] :
    (if c then true else false) = true ↔ c := by
  by_cases h : c <;> simp [h]

/-- C7: `excludeDir` implements the three name-rule shapes with exact-match
semantics. With the rules `["/abs/secret", "rel/sub", "bare"]` (and no
marker-file rules), a candidate directory is excluded exactly when its
normalized absolute path equals `/abs/secret`, or its normalized path
relative to the library root equals `rel/sub`, or its leaf name equals
`bare` — so `bare` is excluded anywhere, `rel/sub` only at that exact
relative path, and `/abs/secret` only at that exact absolute path. -/
theorem excludeDir_three_rule_shapes (child : FSNode) (name rel abs : String) :
    excludeDir envC7 child name rel abs = true ↔
      (posixNormalize (posixJoin2 abs name) = "/abs/secret" ∨
       posixNormalize (posixJoin2 rel name) = "rel/sub" ∨
       name = "bare") := by
  have h6 : posixNormalize "rel/sub" = "rel/sub" := by decide
  have e1 : startsWithSlash "/abs/secret" = true := by decide
  have e2 : startsWithSlash "rel/sub" = false := by decide
  have e3 : slashIn "rel/sub" = true := by decide
  have e4 : startsWithSlash "bare" = false := by decide
  have e5 : slashIn "bare" = false := by decide
  unfold excludeDir
  rw [show envC7.excludeFolderList = ["/abs/secret", "rel/sub", "bare"] from rfl,
    show envC7.excludeFileList = [] from rfl]
  rw [if_neg (by simp)]
  simp only [List.any_cons, List.any_nil, e1, e2, e3, e4, e5, h6,
    Bool.false_eq_true, reduceIte, Bool.or_false]
  rw [ite_true_false]
  simp only [Bool.or_eq_true, decide_eq_true_eq]
  constructor
  · rintro (hx | hx | hx)
    · exact Or.inl hx.symm
    · exact Or.inr (Or.inl hx.symm)
    · exact Or.inr (Or.inr hx.symm)
  · rintro (hx | hx | hx)
    · exact Or.inl hx.symm
    · exact Or.inr (Or.inl hx.symm)
    · exact Or.inr (Or.inr hx.symm)

/-- C4 amended: for every successful scan, the first *photo* (non-video
media entry) of the media list — i.e. the first photo encountered in
listing order — is the snapshot's cover, cloned with its `directory`
back-reference set to this snapshot's path and name (the entry itself is
in the media list with `directory` untouched); videos never become the
cover, and the cover is not marked valid: `validCover` remains `false`. -/
theorem scanDirectory_first_photo_cover (env : ScanEnv) (now : Nat) (node : FSNode)
    (rel : String) (settings : DirectoryScanSettings) (d : DirSnapshot)
    (h : scanDirectory env now node rel settings = .ok d) :
    (DirSnapshot.data d).validCover = false ∧
    (DirSnapshot.data d).cover =
      ((DirSnapshot.data d).media.find? (fun m => !m.isVideo)).map
        (fun m =>
          { m with
            directory := some ((DirSnapshot.data d).path, (DirSnapshot.data d).name) }) := by
  unfold scanDirectory at h
  split at h
  · cases h
    exact coverInv_initial now node (normalizeDirPath rel)
  · cases node with
    | file c m => exact absurd h (by simp)
    | dir c m entries =>
      dsimp only at h
      split at h
      · exact absurd h (by simp)
      · next d2 heq =>
        cases h
        exact coverInv_finalize
          (scanList_cover_inv env now settings _ _ entries _ d2 heq
            (coverInv_initial now _ (normalizeDirPath rel)))

/-- Witness for the amended C4: the video-then-photo scan satisfies the
first-photo cover characterization. -/
theorem scanDirectory_first_photo_cover_witness :
    (DirSnapshot.data (okSnap (scanDirectory baseEnv 100 fsC4 "" {}))).validCover = false ∧
    (DirSnapshot.data (okSnap (scanDirectory baseEnv 100 fsC4 "" {}))).cover =
      ((DirSnapshot.data (okSnap (scanDirectory baseEnv 100 fsC4 "" {}))).media.find?
          (fun m => !m.isVideo)).map
        (fun m =>
          { m with
            directory := some
              ((DirSnapshot.data (okSnap (scanDirectory baseEnv 100 fsC4 "" {}))).path,
                (DirSnapshot.data (okSnap (scanDirectory baseEnv 100 fsC4 "" {}))).name) }) :=
  scanDirectory_first_photo_cover baseEnv 100 fsC4 "" {}
    (okSnap (scanDirectory baseEnv 100 fsC4 "" {})) rfl

/-- C2 amended: `scanDirectoryNoMetadata` forces `noMetadata = true` for the
root scan, so every `MediaEntry` in the returned snapshot's own media list
has `metadata = null`; the media inside the recursively produced partial
child (cover) snapshots are outside this guarantee, since the recursive
call does not inherit `noMetadata` (see the counterexample). -/
theorem scanDirectoryNoMetadata_root_media_metadata_free (env : ScanEnv) (now : Nat)
    (node : FSNode) (rel : String) (settings : DirectoryScanSettings) (d : DirSnapshot)
    (h : (scanDirectoryNoMetadata env now node rel settings).1 = .ok d) :
    ∀ m ∈ (DirSnapshot.data d).media, m.metadata = none := by
  unfold scanDirectoryNoMetadata at h
  dsimp only at h
  unfold scanDirectory at h
  split at h
  · cases h
    intro m hm
    exact absurd hm (by simp [initialSnap])
  · cases node with
    | file c m => exact absurd h (by simp)
    | dir c m entries =>
      dsimp only at h
      split at h
      · exact absurd h (by simp)
      · next d2 heq =>
        cases h
        intro m2 hm2
        refine scanList_noMetadata_media env now { settings with noMetadata := true }
          _ _ rfl entries _ d2 heq ?_ m2 ?_
        · intro m3 hm3
          exact absurd hm3 (by simp [initialSnap])
        · simpa using hm2

/-- C3 amended: an excluded subdirectory contributes zero to the media
aggregates and none of its descendants are visited, but it still
contributes exactly one increment to the parent's `directoryCount`: for
every listing-performing scan (`coverOnly = false` and not all three
content switches set), scanning a directory whose listing contains an
excluded subdirectory (anywhere in the order) gives the same result as
scanning without that subdirectory, with `directoryCount` one higher —
regardless of the excluded subdirectory's contents. -/
theorem scanDirectory_excluded_child_frame (env : ScanEnv) (now : Nat)
    (ct mt cct cmt : Nat) (pre post centries : FSEntries) (cname : String)
    (rel : String) (settings : DirectoryScanSettings)
    (hco : settings.coverOnly = false)
    (hlist : settings.noPhoto = false ∨ settings.noMetaFile = false ∨
      settings.noVideo = false)
    (hexcl : excludeDir env (.dir cct cmt centries) cname (normalizeDirPath rel)
      (posixJoin2 env.imageFolder (normalizeDirPath rel)) = true) :
    scanDirectory env now
        (.dir ct mt (appendEntries pre (.cons cname (.dir cct cmt centries) post)))
        rel settings =
      (scanDirectory env now (.dir ct mt (appendEntries pre post)) rel settings).map
        bumpDirCount := by
  have hset : (settings.noPhoto && settings.noMetaFile && settings.noVideo) = false := by
    rcases hlist with hx | hx | hx <;> simp [hx]
  unfold scanDirectory
  rw [hset]
  simp only [Bool.false_eq_true, reduceIte]
  rw [scanList_excluded_child env now settings (normalizeDirPath rel)
    (posixJoin2 env.imageFolder (normalizeDirPath rel)) hco cct cmt centries cname hexcl]
  rw [show initialSnap now (FSNode.dir ct mt (appendEntries pre
      (FSEntries.cons cname (FSNode.dir cct cmt centries) post))) (normalizeDirPath rel) =
    initialSnap now (FSNode.dir ct mt (appendEntries pre post)) (normalizeDirPath rel)
    from rfl]
  cases hres : scanList env now settings (normalizeDirPath rel)
      (posixJoin2 env.imageFolder (normalizeDirPath rel)) (appendEntries pre post)
      (initialSnap now (FSNode.dir ct mt (appendEntries pre post)) (normalizeDirPath rel))
      with
  | error e => rfl
  | ok dfin =>
    dsimp only [Except.map]
    rw [finalizeCounts_bump]

/-- Witness for the amended C3: the concrete excluded-subdirectory scan
equals the scan of the empty directory with `directoryCount` bumped. -/
theorem scanDirectory_excluded_child_frame_witness :
    scanDirectory envC3 100 fsC3 "" {} =
      (scanDirectory envC3 100 (.dir 1 2 .nil) "" {}).map bumpDirCount :=
  scanDirectory_excluded_child_frame envC3 100 1 2 3 4 .nil .nil
    (.cons "p.jpg" (.file 5 6) .nil) "secret" "" {} rfl (Or.inl rfl) (by decide)

/-- Witness for the amended C2: in a concrete scan with a direct photo and
a subdirectory, every media entry of the root snapshot is metadata-less. -/
theorem scanDirectoryNoMetadata_root_media_metadata_free_witness :
    ((DirSnapshot.data (okSnap (scanDirectoryNoMetadata baseEnv 100 fsC2w "" {}).1)).media.all
      (fun m => m.metadata == none)) = true := by
  have h := scanDirectoryNoMetadata_root_media_metadata_free baseEnv 100 fsC2w "" {}
    (okSnap (scanDirectoryNoMetadata baseEnv 100 fsC2w "" {}).1) rfl
  refine List.all_eq_true.mpr ?_
  intro m hm
  simp [h m hm]

end DiskManger
